import Mathlib

/-!
Shallow embedding of the feature layer of the Vega distributed-mailbox
client (`feature_client.go`): the pipe endpoint (`pipeConn.Read`,
`pipeConn.Write`, `pipeConn.Close`), the handshake operations
(`ListenPipe`, `ConnectPipe`), and the RPC machinery (`LocalQueue`,
`Request`, `HandleRequests`).

The transport `Client` (Push, Poll, LongPoll, Declare, EphemeralDeclare,
Abandon, Ack, RandomQueue) is external to the repository; it is modelled
from the spec as an oracle: each transport call consumes one prescribed
response.  Bytes are modelled as `Nat`, errors as `String`.
-/

namespace Vega

/-- A mailbox message: `Type`, `ReplyTo` and `Body` fields of the Go
`Message` envelope, the three fields the feature layer reads. -/
structure Message where
  type : String
  replyTo : String
  body : List Nat
  deriving DecidableEq, Repr

/-- Modelled from the spec: a delivery is a message plus an acknowledgement
capability; `ackErr` is the error that the transport would return from
calling `Ack` on this delivery (`none` = Ack succeeds). -/
structure Delivery where
  message : Message
  ackErr : Option String
  deriving DecidableEq, Repr

/-- Modelled from the spec: the outcome of one transport `Poll`/`LongPoll`
call: a transport error, or an optional delivery (`none` = nothing
queued / window expired). -/
inductive TEv where
  | error (e : String)
  | ok (d : Option Delivery)
  deriving DecidableEq, Repr

/-- Error returned by a pipe-endpoint operation: the end-of-stream
sentinel `io.EOF`, or a transport error propagated verbatim. -/
inductive RErr where
  | eof
  | terr (e : String)
  deriving DecidableEq, Repr

/-- Mutable state of a `pipeConn` endpoint: the `closed` flag, the
`abandon` flag, and the residual `buffer` (`none` = Go nil slice). -/
structure PipeState where
  closed : Bool
  abandon : Bool
  buffer : Option (List Nat)
  deriving DecidableEq, Repr

/-- Result of one `pipeConn.Read` call: a normal return carrying the bytes
copied into `b`, the returned error and the post state; `panic` for the
nil-pointer dereference reachable in the opportunistic-poll path; or
`diverge` when the prescribed oracle runs out while the code would keep
polling. -/
inductive ReadResult where
  | ret (bs : List Nat) (err : Option RErr) (s : PipeState)
  | panic
  | diverge
  deriving DecidableEq, Repr

/-- The `for` loop at the bottom of `pipeConn.Read` (empty-buffer case):
long-poll `ownM` until a delivery arrives, ack it, handle `pipe/close`,
then copy with the short/long rule.  Consumes oracle entries one per
`LongPoll` call; returns the unconsumed tail. -/
def readFromLoop (s : PipeState) (bn : Nat) : List TEv → ReadResult × List TEv
  | [] => (.diverge, [])
  | .error e :: rest => (.ret [] (some (.terr e)) s, rest)
  | .ok none :: rest => readFromLoop s bn rest
  | .ok (some d) :: rest =>
    match d.ackErr with
    | some e => (.ret [] (some (.terr e)) s, rest)
    | none =>
      if d.message.type = "pipe/close" then
        (.ret [] (some .eof) { s with closed := true }, rest)
      else
        let body := d.message.body
        if bn < body.length then
          (.ret (body.take bn) none { s with buffer := some (body.drop bn) }, rest)
        else
          (.ret body none { s with buffer := none }, rest)

/-- `pipeConn.Read` with a destination slice of length `bn`.  The oracle
`ora` prescribes the responses of the transport calls (`Poll` in the
opportunistic top-up path, `LongPoll` in the empty-buffer loop), in
order; the unconsumed tail is returned.  Mirrors the Go source line by
line, including the missing nil check after the opportunistic `Poll`
(`resp.Ack()` on a nil delivery is `panic`). -/
def pipeRead (s : PipeState) (bn : Nat) (ora : List TEv) : ReadResult × List TEv :=
  if s.closed then (.ret [] (some .eof) s, ora)
  else
    match s.buffer with
    | some buf =>
      let n := buf.length
      if bn < n then
        (.ret (buf.take bn) none { s with buffer := some (buf.drop bn) }, ora)
      else if bn > n then
        match ora with
        | [] => (.diverge, [])
        | .error _ :: rest => (.ret buf none { s with buffer := none }, rest)
        | .ok none :: rest => (.panic, rest)
        | .ok (some d) :: rest =>
          match d.ackErr with
          | some _ => (.ret buf none { s with buffer := none }, rest)
          | none =>
            if d.message.type = "pipe/close" then
              (.ret buf none { s with closed := true, buffer := none }, rest)
            else
              let bn2 := bn - n
              let body := d.message.body
              if bn2 < body.length then
                (.ret (buf ++ body.take bn2) none { s with buffer := some (body.drop bn2) }, rest)
              else
                (.ret (buf ++ body) none { s with buffer := none }, rest)
      else (.ret buf none { s with buffer := none }, ora)
    | none => readFromLoop s bn ora

/-- Result of `pipeConn.Write`: byte count, returned error, post state,
and the message pushed to `pairM` (if the push was attempted). -/
structure WriteResult where
  n : Nat
  err : Option RErr
  s : PipeState
  pushed : Option Message
  deriving DecidableEq, Repr

/-- `pipeConn.Write`: fail with `io.EOF` if `closed`, else push
`{Body: b}` to `pairM`; `pushErr` is the transport response to that
push. -/
def pipeWrite (s : PipeState) (b : List Nat) (pushErr : Option String) : WriteResult :=
  if s.closed then ⟨0, some .eof, s, none⟩
  else
    match pushErr with
    | some e => ⟨0, some (.terr e), s, some ⟨"", "", b⟩⟩
    | none => ⟨b.length, none, s, some ⟨"", "", b⟩⟩

/-- Result of `pipeConn.Close`: returned error, post state, number of
`Abandon(ownM)` calls made, and the messages pushed to `pairM`. -/
structure CloseResult where
  err : Option RErr
  s : PipeState
  abandonCalls : Nat
  pushed : List Message
  deriving DecidableEq, Repr

/-- `pipeConn.Close`: no-op when `abandon` is already set; otherwise set
`abandon`, call `Abandon(ownM)` (its error is discarded), and push
`{Type: "pipe/close"}` to `pairM`, returning the push error verbatim. -/
def pipeClose (s : PipeState) (pushErr : Option String) : CloseResult :=
  if s.abandon then ⟨none, s, 0, []⟩
  else
    ⟨pushErr.map .terr, { s with abandon := true }, 1, [⟨"pipe/close", "", []⟩]⟩

/-- Mutable state of a `FeatureClient`: the cached `localQueue` name
(Go zero value `""` = not yet created). -/
structure FCState where
  localQueue : String
  deriving DecidableEq, Repr

/-- `FeatureClient.LocalQueue`: return the cached name if non-empty;
otherwise take a fresh random name `r`, declare it ephemeral (`declErr`
is the transport response) and cache it.  A declare error makes the Go
code `panic`, modelled as `none`.  The `Bool` records whether this call
invoked `EphemeralDeclare`. -/
def localQueueCall (s : FCState) (r : String) (declErr : Option String) :
    Option (String × FCState × Bool) :=
  if s.localQueue ≠ "" then some (s.localQueue, s, false)
  else
    match declErr with
    | some _ => none
    | none => some (r, ⟨r⟩, true)

/-- Run a sequence of `LocalQueue` calls on one instance; each oracle
entry supplies the random name and declare response that call would see.
Returns the results, the final state and the total number of
`EphemeralDeclare` calls made, or `none` if some call panicked. -/
def runLQ : FCState → List (String × Option String) → Option (List String × FCState × Nat)
  | s, [] => some ([], s, 0)
  | s, (r, de) :: rest =>
    match localQueueCall s r de with
    | none => none
    | some (q, s1, declared) =>
      match runLQ s1 rest with
      | none => none
      | some (qs, s2, c) => some (q :: qs, s2, (if declared then 1 else 0) + c)

/-- Outcome of `FeatureClient.Request`: panic (from `LocalQueue`), a
transport error returned to the caller, the first non-nil delivery, or
oracle exhaustion while the code would keep long-polling. -/
inductive ReqResult where
  | panic
  | terr (e : String)
  | ok (d : Delivery)
  | diverge
  deriving DecidableEq, Repr

/-- Result of `Request` together with the push it performed: the target
queue and the message as pushed (after the `ReplyTo` overwrite). -/
structure RequestOut where
  res : ReqResult
  pushed : Option (String × Message)
  s : FCState
  deriving DecidableEq, Repr

/-- The reply loop of `Request`: long-poll `msg.ReplyTo` until a non-nil
delivery arrives; a nil result continues the loop; a transport error is
returned. -/
def requestLoop : List TEv → ReqResult
  | [] => .diverge
  | .error e :: _ => .terr e
  | .ok none :: rest => requestLoop rest
  | .ok (some d) :: _ => .ok d

/-- `FeatureClient.Request(name, msg)`: set `msg.ReplyTo := LocalQueue()`,
push the message to `name` (`pushErr` is the transport response), then
run the reply loop over the `lps` oracle. -/
def request (s : FCState) (r : String) (declErr : Option String) (name : String)
    (msg : Message) (pushErr : Option String) (lps : List TEv) : RequestOut :=
  match localQueueCall s r declErr with
  | none => ⟨.panic, none, s⟩
  | some (lq, s1, _) =>
    let m := { msg with replyTo := lq }
    match pushErr with
    | some e => ⟨.terr e, some (name, m), s1⟩
    | none => ⟨requestLoop lps, some (name, m), s1⟩

/-- Observable transport action of one `HandleRequests` iteration:
handler invocation, `Ack` of the delivery, and the reply push with its
target queue. -/
inductive HEvent where
  | handled (m : Message)
  | acked (m : Message)
  | pushedReply (q : String) (m : Message)
  deriving DecidableEq, Repr

/-- Oracle entry for one `HandleRequests` iteration: the long-poll fails,
returns nothing, or yields a delivery whose subsequent reply push gets
transport response `pushErr`. -/
inductive HRStep where
  | lpErr (e : String)
  | lpNil
  | deliver (d : Delivery) (pushErr : Option String)
  deriving DecidableEq, Repr

/-- `FeatureClient.HandleRequests(name, h)`: loop long-polling `name`; a
transport error terminates the loop and is returned; a nil result
continues; a delivery is handled, acked (the `Ack` error is discarded)
and the handler result is pushed to the message's `ReplyTo` (the push
error is discarded).  Returns the event trace and the terminating error
(`none` when the oracle ran out while the real loop would continue). -/
def handleRequests (h : Message → Message) : List HRStep → List HEvent × Option String
  | [] => ([], none)
  | .lpErr e :: _ => ([], some e)
  | .lpNil :: rest => handleRequests h rest
  | .deliver d _ :: rest =>
    let out := handleRequests h rest
    (.handled d.message :: .acked d.message ::
      .pushedReply d.message.replyTo (h d.message) :: out.1, out.2)

/-- Outcome of a pipe-handshake operation (`ListenPipe` / `ConnectPipe`):
an endpoint `(pairM, ownM)`, a transport error returned verbatim, the
`EProtocolError` sentinel, or oracle exhaustion in the long-poll loop. -/
inductive HSResult where
  | conn (pairM ownM : String)
  | terr (e : String)
  | protocolErr
  | diverge
  deriving DecidableEq, Repr

/-- Result of a handshake operation plus its pushes (target queue and
message) and the queues it abandoned. -/
structure HSOut where
  res : HSResult
  pushed : List (String × Message)
  abandoned : List String
  deriving DecidableEq, Repr

/-- The reply loop of `ConnectPipe`: long-poll `ownM`; error and `Ack`
error are returned; a non-`pipe/setup` message abandons `ownM` and
returns `EProtocolError`; otherwise the delivery's `ReplyTo` becomes
`pairM`. -/
def connectLoop (ownM : String) (pushes : List (String × Message)) : List TEv → HSOut
  | [] => ⟨.diverge, pushes, []⟩
  | .error e :: _ => ⟨.terr e, pushes, []⟩
  | .ok none :: rest => connectLoop ownM pushes rest
  | .ok (some d) :: _ =>
    match d.ackErr with
    | some e => ⟨.terr e, pushes, []⟩
    | none =>
      if d.message.type ≠ "pipe/setup" then ⟨.protocolErr, pushes, [ownM]⟩
      else ⟨.conn d.message.replyTo ownM, pushes, []⟩

/-- `FeatureClient.ConnectPipe(name)`: pick `ownM = RandomQueue()`,
declare it ephemeral — the Go code discards the returned error, so
`declErr` is unused — push `{Type: "pipe/initconnect", ReplyTo: ownM}`
to `pipe:name` (on push error: abandon `ownM` and return the error),
then run the reply loop. -/
def connectPipe (name ownM : String) (declErr pushErr : Option String)
    (lps : List TEv) : HSOut :=
  let initMsg : Message := ⟨"pipe/initconnect", ownM, []⟩
  let q := "pipe:" ++ name
  match pushErr with
  | some e => ⟨.terr e, [(q, initMsg)], [ownM]⟩
  | none => connectLoop ownM [(q, initMsg)] lps

/-- The accept loop of `ListenPipe`: long-poll the rendezvous queue;
error and `Ack` error are returned; a non-`pipe/initconnect` message
returns `EProtocolError` (nothing to abandon yet); otherwise declare
`ownM` ephemeral (error discarded, `ephDeclErr` unused) and push
`{Type: "pipe/setup", ReplyTo: ownM}` to the connector's `ReplyTo` (on
push error: abandon `ownM` and return the error). -/
def listenLoop (ownM : String) (ephDeclErr pushErr : Option String) : List TEv → HSOut
  | [] => ⟨.diverge, [], []⟩
  | .error e :: _ => ⟨.terr e, [], []⟩
  | .ok none :: rest => listenLoop ownM ephDeclErr pushErr rest
  | .ok (some d) :: _ =>
    match d.ackErr with
    | some e => ⟨.terr e, [], []⟩
    | none =>
      if d.message.type ≠ "pipe/initconnect" then ⟨.protocolErr, [], []⟩
      else
        let setupMsg : Message := ⟨"pipe/setup", ownM, []⟩
        match pushErr with
        | some e => ⟨.terr e, [(d.message.replyTo, setupMsg)], [ownM]⟩
        | none => ⟨.conn d.message.replyTo ownM, [(d.message.replyTo, setupMsg)], []⟩

/-- `FeatureClient.ListenPipe(name)`: declare the rendezvous queue
`pipe:name` (`rendDeclErr` is the transport response, propagated
verbatim by both routes of `FeatureClient.Declare`), then run the
accept loop. -/
def listenPipe (name ownM : String) (rendDeclErr : Option String)
    (lps : List TEv) (ephDeclErr pushErr : Option String) : HSOut :=
  match rendDeclErr with
  | some e => ⟨.terr e, [], []⟩
  | none => listenLoop ownM ephDeclErr pushErr lps

/-- A data frame as produced by `pipeConn.Write`: empty `Type`, body `w`. -/
def dataMsg (w : List Nat) : Message := ⟨"", "", w⟩

/-- The in-band close sentinel pushed by `pipeConn.Close`. -/
def closeMsg : Message := ⟨"pipe/close", "", []⟩

/-- The reader's inbox after the writer wrote the frames `ws` and then
closed: the data frames in order, followed by the close sentinel. -/
def mkQ (ws : List (List Nat)) : List Message := ws.map dataMsg ++ [closeMsg]

/-- A deterministic transport oracle serving the queue `q`: every poll
delivers the next queued message and its `Ack` succeeds. -/
def oraOf (q : List Message) : List TEv := q.map (fun m => .ok (some ⟨m, none⟩))

/-- Bytes currently held in the endpoint's residual buffer. -/
def bufB (s : PipeState) : List Nat := s.buffer.getD []

/-- Drive `pipeConn.Read` repeatedly, one call per entry of `bns` (the
successive destination-slice lengths), concatenating the returned bytes,
until a read returns `io.EOF`.  `none` if the reads did not reach
end-of-stream within `bns`, or hit a transport error, panic or
divergence. -/
def readAll (s : PipeState) (bns : List Nat) (ora : List TEv) (acc : List Nat) :
    Option (List Nat) :=
  match bns with
  | [] => none
  | bn :: rest =>
    match pipeRead s bn ora with
    | (.ret bs none s1, ora1) => readAll s1 rest ora1 (acc ++ bs)
    | (.ret bs (some .eof) _, _) => some (acc ++ bs)
    | (.ret _ (some (.terr _)) _, _) => none
    | (.panic, _) => none
    | (.diverge, _) => none

theorem mkQ_nil : mkQ [] = [closeMsg] := rfl

theorem mkQ_cons (w : List Nat) (ws : List (List Nat)) :
    mkQ (w :: ws) = dataMsg w :: mkQ ws := by
  simp [mkQ]

theorem oraOf_nil : oraOf [] = [] := rfl

theorem oraOf_cons (m : Message) (q : List Message) :
    oraOf (m :: q) = .ok (some ⟨m, none⟩) :: oraOf q := by
  simp [oraOf]

/-- Claim C1: in the opportunistic-poll path of `pipeConn.Read` (residual
buffer `"ef"`, 4-byte destination), a `Poll` that returns a transport
error yields the 2 buffered bytes with no error as the spec says, but a
`Poll` that returns no delivery (nil, nil) makes the code call
`resp.Ack()` on a nil delivery — a nil-pointer panic, not the return of
2 bytes the spec requires. -/
theorem read_topup_nil_poll_panics :
    pipeRead ⟨false, false, some [101, 102]⟩ 4 [.ok none] = (.panic, []) ∧
    pipeRead ⟨false, false, some [101, 102]⟩ 4 [.error "poll failed"] =
      (.ret [101, 102] none ⟨false, false, none⟩, []) := by
  constructor <;> rfl

/-- Claim C2: if the opportunistic poll of `pipeConn.Read` (buffer
non-empty, `len(b) > len(buffer)`) receives a `pipe/close` delivery,
that `Read` returns exactly the assembled residual bytes with no error
and marks the endpoint closed; the next `Read` returns zero bytes with
`io.EOF`. -/
theorem read_close_during_topup (s : PipeState) (buf : List Nat) (m : Message)
    (bn : Nat) (rest : List TEv) (bn2 : Nat) (ora2 : List TEv)
    (hc : s.closed = false) (hb : s.buffer = some buf) (hlen : buf.length < bn)
    (hm : m.type = "pipe/close") :
    pipeRead s bn (.ok (some ⟨m, none⟩) :: rest) =
      (.ret buf none { s with closed := true, buffer := none }, rest) ∧
    pipeRead { s with closed := true, buffer := none } bn2 ora2 =
      (.ret [] (some .eof) { s with closed := true, buffer := none }, ora2) := by
  have h1 : ¬ bn < buf.length := by omega
  constructor
  · simp [pipeRead, hc, hb, h1, hlen, hm]
  · simp [pipeRead]

theorem read_close_during_topup_witness :
    pipeRead ⟨false, false, some [7]⟩ 3 [.ok (some ⟨⟨"pipe/close", "", []⟩, none⟩)] =
      (.ret [7] none ⟨true, false, none⟩, []) ∧
    pipeRead ⟨true, false, none⟩ 4 [] = (.ret [] (some .eof) ⟨true, false, none⟩, []) :=
  read_close_during_topup ⟨false, false, some [7]⟩ [7] ⟨"pipe/close", "", []⟩ 3 [] 4 []
    rfl rfl (by decide) rfl

/-- Claim C7: on every delivery, `HandleRequests` invokes the handler on
the received message, then acks the delivery, then pushes the handler's
reply to the message's `ReplyTo` — in that order — and the outcome is
independent of the reply push's error (the loop continues). -/
theorem handleRequests_ack_before_push (h : Message → Message) (d : Delivery)
    (pe pe' : Option String) (rest : List HRStep) :
    handleRequests h (.deliver d pe :: rest) =
      (.handled d.message :: .acked d.message ::
        .pushedReply d.message.replyTo (h d.message) :: (handleRequests h rest).1,
       (handleRequests h rest).2) ∧
    handleRequests h (.deliver d pe :: rest) = handleRequests h (.deliver d pe' :: rest) := by
  constructor <;> rfl

/-- Claim C8: two successive `Close` calls on a pipe endpoint push at most
one `pipe/close` message and call `Abandon(ownM)` at most once; the
second `Close` returns nil and has no side effects. -/
theorem close_idempotent (s : PipeState) (pe1 pe2 : Option String) :
    (pipeClose s pe1).abandonCalls + (pipeClose (pipeClose s pe1).s pe2).abandonCalls ≤ 1 ∧
    ((pipeClose s pe1).pushed ++ (pipeClose (pipeClose s pe1).s pe2).pushed = [] ∨
      (pipeClose s pe1).pushed ++ (pipeClose (pipeClose s pe1).s pe2).pushed =
        [⟨"pipe/close", "", []⟩]) ∧
    pipeClose (pipeClose s pe1).s pe2 = ⟨none, (pipeClose s pe1).s, 0, []⟩ := by
  by_cases h : s.abandon <;> simp [pipeClose, h]

/-- Claim C10: a local `Close` sets only the `abandon` flag, leaving
`closed` and the residual buffer unchanged; hence a `Write` after a
local `Close` (with `closed` still false) does not fail with
end-of-stream but pushes the data frame `{Body: b}` to `pairM` and
returns `len(b)` on push success. -/
theorem close_then_write (s : PipeState) (ce : Option String) (b : List Nat)
    (h : s.closed = false) :
    (pipeClose s ce).s = { s with abandon := true } ∧
    pipeWrite (pipeClose s ce).s b none =
      ⟨b.length, none, { s with abandon := true }, some (dataMsg b)⟩ := by
  by_cases ha : s.abandon
  · cases s
    simp_all [pipeClose, pipeWrite, dataMsg]
  · simp [pipeClose, pipeWrite, ha, h, dataMsg]

theorem close_then_write_witness :
    (pipeClose ⟨false, false, some [9]⟩ none).s = ⟨false, true, some [9]⟩ ∧
    pipeWrite (pipeClose ⟨false, false, some [9]⟩ none).s [1, 2] none =
      ⟨2, none, ⟨false, true, some [9]⟩, some (dataMsg [1, 2])⟩ :=
  close_then_write ⟨false, false, some [9]⟩ none [1, 2] rfl

theorem readFromLoop_len (s : PipeState) (bn : Nat) (ora : List TEv) :
    ∀ (bs : List Nat) (e : Option RErr) (s1 : PipeState) (ora1 : List TEv),
      readFromLoop s bn ora = (.ret bs e s1, ora1) → bs.length ≤ bn := by
  induction ora with
  | nil =>
    intro bs e s1 ora1 h
    simp [readFromLoop] at h
  | cons ev rest ih =>
    intro bs e s1 ora1 h
    match ev with
    | .error e2 =>
      simp [readFromLoop] at h
      replace h := h.1.1
      subst h
      simp
    | .ok none =>
      exact ih bs e s1 ora1 h
    | .ok (some d) =>
      simp only [readFromLoop] at h
      match hak : d.ackErr with
      | some e2 =>
        rw [hak] at h
        simp at h
        replace h := h.1.1
        subst h
        simp
      | none =>
        rw [hak] at h
        by_cases hty : d.message.type = "pipe/close"
        · simp [hty] at h
          replace h := h.1.1
          subst h
          simp
        · simp only [hty, if_neg, if_false] at h
          by_cases hlt : bn < d.message.body.length
          · simp [hlt] at h
            replace h := h.1.1
            subst h
            simp only [List.length_take]
            omega
          · simp [hlt] at h
            replace h := h.1.1
            subst h
            omega

/-- Claim C9: every normal return of `pipeConn.Read` delivers at most
`len(b)` bytes, in all four cases (short, exact, long with opportunistic
top-up, empty-buffer long-poll) and on the closed path. -/
theorem read_size_contract (s : PipeState) (bn : Nat) (ora : List TEv)
    (bs : List Nat) (e : Option RErr) (s1 : PipeState) (ora1 : List TEv)
    (h : pipeRead s bn ora = (.ret bs e s1, ora1)) : bs.length ≤ bn := by
  by_cases hcl : s.closed
  · simp [pipeRead, hcl] at h
    replace h := h.1.1
    subst h
    simp
  · match hbuf : s.buffer with
    | none =>
      rw [pipeRead, if_neg hcl, hbuf] at h
      exact readFromLoop_len s bn ora bs e s1 ora1 h
    | some buf =>
      rw [pipeRead, if_neg hcl, hbuf] at h
      by_cases h1 : bn < buf.length
      · simp [h1] at h
        replace h := h.1.1
        subst h
        simp only [List.length_take]
        omega
      · by_cases h2 : bn > buf.length
        · simp [h1, h2] at h
          match ora with
          | [] => simp at h
          | .error e2 :: rest =>
            simp at h
            replace h := h.1.1
            subst h
            omega
          | .ok none :: rest => simp at h
          | .ok (some d) :: rest =>
            simp only at h
            match hak : d.ackErr with
            | some e2 =>
              rw [hak] at h
              simp at h
              replace h := h.1.1
              subst h
              omega
            | none =>
              rw [hak] at h
              by_cases hty : d.message.type = "pipe/close"
              · simp [hty] at h
                replace h := h.1.1
                subst h
                omega
              · simp only [hty, if_neg, if_false] at h
                by_cases hlt : bn - buf.length < d.message.body.length
                · simp [hlt] at h
                  replace h := h.1.1
                  subst h
                  simp only [List.length_append, List.length_take]
                  omega
                · simp [hlt] at h
                  replace h := h.1.1
                  subst h
                  simp only [List.length_append]
                  omega
        · simp [h1, h2] at h
          replace h := h.1.1
          subst h
          omega

theorem read_size_contract_witness : ([1] : List Nat).length ≤ 1 :=
  read_size_contract ⟨false, false, some [1, 2]⟩ 1 [] [1] none
    ⟨false, false, some [2]⟩ [] (by decide)

theorem runLQ_cached (q : String) (hq : q ≠ "") (os : List (String × Option String)) :
    runLQ ⟨q⟩ os = some (List.replicate os.length q, ⟨q⟩, 0) := by
  induction os with
  | nil => rfl
  | cons o rest ih =>
    simp [runLQ, localQueueCall, hq, ih, List.replicate_succ]

/-- Claim C5: on one FeatureClient instance, every `LocalQueue` call
returns the same string — the random name `r` declared by the first
call — and `EphemeralDeclare` is invoked exactly once across all calls,
whatever random names and declare responses later calls would see. -/
theorem localQueue_stable (r : String) (os : List (String × Option String))
    (hr : r ≠ "") :
    runLQ ⟨""⟩ ((r, none) :: os) =
      some (List.replicate (os.length + 1) r, ⟨r⟩, 1) := by
  have h1 : localQueueCall ⟨""⟩ r none = some (r, ⟨r⟩, true) := by
    simp [localQueueCall]
  simp [runLQ, h1, runLQ_cached r hr os, List.replicate_succ]

theorem localQueue_stable_witness :
    runLQ ⟨""⟩ [("q1", none), ("q2", none), ("q3", some "boom")] =
      some (["q1", "q1", "q1"], ⟨"q1"⟩, 1) :=
  localQueue_stable "q1" [("q2", none), ("q3", some "boom")] (by decide)

theorem requestLoop_first_delivery (k : Nat) (d : Delivery) (rest : List TEv) :
    requestLoop (List.replicate k (.ok none) ++ .ok (some d) :: rest) = .ok d := by
  induction k with
  | zero => rfl
  | succ k2 ih => simpa [List.replicate_succ, requestLoop] using ih

/-- Claim C6: `Request(name, msg)` pushes to `name` a message whose
`ReplyTo` is the instance's `LocalQueue()` regardless of the caller's
`msg.ReplyTo` (first conjunct: cached queue `q`; second conjunct: fresh
instance whose first `LocalQueue` call declares `r`), skips any number
of nil long-poll results, and returns the first non-nil delivery. -/
theorem request_reply_addressing (s : FCState) (q r : String) (de : Option String)
    (name : String) (msg : Message) (k : Nat) (d : Delivery) (rest : List TEv)
    (hq : s.localQueue = q) (hne : q ≠ "") :
    request s r de name msg none (List.replicate k (.ok none) ++ .ok (some d) :: rest) =
      ⟨.ok d, some (name, { msg with replyTo := q }), s⟩ ∧
    request ⟨""⟩ r none name msg none (List.replicate k (.ok none) ++ .ok (some d) :: rest) =
      ⟨.ok d, some (name, { msg with replyTo := r }), ⟨r⟩⟩ := by
  constructor
  · have h1 : localQueueCall s r de = some (q, s, false) := by
      simp [localQueueCall, hq, hne]
    simp [request, h1, requestLoop_first_delivery]
  · have h1 : localQueueCall ⟨""⟩ r none = some (r, ⟨r⟩, true) := by
      simp [localQueueCall]
    simp [request, h1, requestLoop_first_delivery]

theorem request_reply_addressing_witness :
    request ⟨"lq"⟩ "rnd" none "svc" ⟨"", "attacker", [1]⟩ none
        (List.replicate 2 (.ok none) ++ .ok (some ⟨⟨"", "", [2]⟩, none⟩) :: []) =
      ⟨.ok ⟨⟨"", "", [2]⟩, none⟩, some ("svc", ⟨"", "lq", [1]⟩), ⟨"lq"⟩⟩ ∧
    request ⟨""⟩ "rnd" none "svc" ⟨"", "attacker", [1]⟩ none
        (List.replicate 2 (.ok none) ++ .ok (some ⟨⟨"", "", [2]⟩, none⟩) :: []) =
      ⟨.ok ⟨⟨"", "", [2]⟩, none⟩, some ("svc", ⟨"", "rnd", [1]⟩), ⟨"rnd"⟩⟩ :=
  request_reply_addressing ⟨"lq"⟩ "lq" "rnd" none "svc" ⟨"", "attacker", [1]⟩ 2
    ⟨⟨"", "", [2]⟩, none⟩ [] rfl (by decide)

/-- Claim C3 counterexample: `ConnectPipe` does not propagate an error
returned by `EphemeralDeclare` of its own mailbox `ownM` — the Go code
discards that error, and the handshake proceeds to return a connection. -/
theorem connectPipe_ignores_declare_error :
    (connectPipe "n" "own" (some "declare failed") none
        [.ok (some ⟨⟨"pipe/setup", "lq", []⟩, none⟩)]).res = .conn "lq" "own" ∧
    (connectPipe "n" "own" (some "declare failed") none
        [.ok (some ⟨⟨"pipe/setup", "lq", []⟩, none⟩)]).res ≠ .terr "declare failed" := by
  constructor
  · rfl
  · decide

theorem listenLoop_declErr_irrel (ownM : String) (pe de de2 : Option String)
    (lps : List TEv) : listenLoop ownM de pe lps = listenLoop ownM de2 pe lps := by
  induction lps with
  | nil => rfl
  | cons ev rest ih =>
    cases ev with
    | error e => rfl
    | ok d =>
      cases d with
      | none => simpa [listenLoop] using ih
      | some d2 => rfl

/-- Claim C3 amended: within `ListenPipe` and `ConnectPipe`, an error
returned by a transport call whose result the code inspects — the
listener's `Declare` of the rendezvous queue, the `Push` of the
`pipe/initconnect` or `pipe/setup` handshake message, `LongPoll`, and
`Ack` — is propagated verbatim to the caller and the operation
terminates, while the error returned by `EphemeralDeclare(ownM)` is
discarded and the outcome is unchanged.  The restriction to these two
operations is forced: at the scope of every feature operation the
propagation claim fails twice over, since the opportunistic-poll path
of `pipeConn.Read` inspects the `Poll` error and the `Ack` error yet
swallows both, returning the buffered bytes with nil error (last two
conjuncts). -/
theorem transport_error_propagation (name ownM rq : String) (de de2 pe : Option String)
    (lps : List TEv) (e : String) (rest : List TEv) (m : Message)
    (buf : List Nat) (k : Nat) :
    connectPipe name ownM de pe lps = connectPipe name ownM de2 pe lps ∧
    listenPipe name ownM none lps de pe = listenPipe name ownM none lps de2 pe ∧
    (connectPipe name ownM de (some e) lps).res = .terr e ∧
    (connectPipe name ownM de none (.error e :: rest)).res = .terr e ∧
    (connectPipe name ownM de none (.ok (some ⟨m, some e⟩) :: rest)).res = .terr e ∧
    (listenPipe name ownM (some e) lps de pe).res = .terr e ∧
    (listenPipe name ownM none (.error e :: rest) de pe).res = .terr e ∧
    (listenPipe name ownM none (.ok (some ⟨m, some e⟩) :: rest) de pe).res = .terr e ∧
    (listenPipe name ownM none (.ok (some ⟨⟨"pipe/initconnect", rq, []⟩, none⟩) :: rest)
        de (some e)).res = .terr e ∧
    (pipeRead ⟨false, false, some buf⟩ (buf.length + k + 1) (.error e :: rest)).1 =
      .ret buf none ⟨false, false, none⟩ ∧
    (pipeRead ⟨false, false, some buf⟩ (buf.length + k + 1)
        (.ok (some ⟨m, some e⟩) :: rest)).1 = .ret buf none ⟨false, false, none⟩ := by
  have h1 : ¬ buf.length + k + 1 < buf.length := by omega
  have h2 : buf.length + k + 1 > buf.length := by omega
  refine ⟨rfl, listenLoop_declErr_irrel ownM pe de de2 lps, rfl, rfl, rfl, rfl, rfl, rfl,
    rfl, ?_, ?_⟩
  · simp [pipeRead, h1, h2]
  · simp [pipeRead, h1, h2]

theorem readAll_closed (s : PipeState) (hs : s.closed = true) (bns : List Nat)
    (ora : List TEv) (acc out : List Nat)
    (h : readAll s bns ora acc = some out) : out = acc := by
  cases bns with
  | nil => simp [readAll] at h
  | cons bn rest =>
    simp [readAll, pipeRead, hs] at h
    exact h.symm

theorem pipeRead_step (s : PipeState) (bn : Nat) (ws : List (List Nat))
    (hc : s.closed = false) :
    (∃ bs s1 ws1, pipeRead s bn (oraOf (mkQ ws)) = (.ret bs none s1, oraOf (mkQ ws1)) ∧
        s1.closed = false ∧ bufB s ++ ws.flatten = bs ++ bufB s1 ++ ws1.flatten) ∨
    (∃ bs s1 rest1, pipeRead s bn (oraOf (mkQ ws)) = (.ret bs none s1, rest1) ∧
        s1.closed = true ∧ bufB s ++ ws.flatten = bs) ∨
    (∃ s1 rest1, pipeRead s bn (oraOf (mkQ ws)) = (.ret [] (some .eof) s1, rest1) ∧
        bufB s ++ ws.flatten = []) := by
  match hbuf : s.buffer with
  | some buf =>
    by_cases h1 : bn < buf.length
    · left
      refine ⟨buf.take bn, { s with buffer := some (buf.drop bn) }, ws, ?_, ?_, ?_⟩
      · simp [pipeRead, hc, hbuf, h1]
      · simpa using hc
      · have hw : buf.take bn ++ (buf.drop bn ++ ws.flatten) = buf ++ ws.flatten := by
          rw [← List.append_assoc, List.take_append_drop]
        simp [bufB, hbuf, hw]
    · by_cases h2 : bn > buf.length
      · cases ws with
        | nil =>
          right; left
          refine ⟨buf, { s with closed := true, buffer := none }, [], ?_, rfl, ?_⟩
          · simp [pipeRead, hc, hbuf, h1, h2, mkQ_nil, oraOf_cons, oraOf_nil, closeMsg]
          · simp [bufB, hbuf]
        | cons w ws2 =>
          by_cases h3 : bn - buf.length < w.length
          · left
            refine ⟨buf ++ w.take (bn - buf.length),
              { s with buffer := some (w.drop (bn - buf.length)) }, ws2, ?_, ?_, ?_⟩
            · simp [pipeRead, hc, hbuf, h1, h2, mkQ_cons, oraOf_cons, dataMsg, h3]
            · simpa using hc
            · have hw : w.take (bn - buf.length) ++ (w.drop (bn - buf.length) ++ ws2.flatten) =
                  w ++ ws2.flatten := by
                rw [← List.append_assoc, List.take_append_drop]
              simp [bufB, hbuf, hw]
          · left
            refine ⟨buf ++ w, { s with buffer := none }, ws2, ?_, ?_, ?_⟩
            · simp [pipeRead, hc, hbuf, h1, h2, mkQ_cons, oraOf_cons, dataMsg, h3]
            · simpa using hc
            · simp [bufB, hbuf]
      · left
        refine ⟨buf, { s with buffer := none }, ws, ?_, ?_, ?_⟩
        · simp [pipeRead, hc, hbuf, h1, h2]
        · simpa using hc
        · simp [bufB, hbuf]
  | none =>
    cases ws with
    | nil =>
      right; right
      refine ⟨{ s with closed := true }, [], ?_, ?_⟩
      · simp [pipeRead, hc, hbuf, readFromLoop, mkQ_nil, oraOf_cons, oraOf_nil, closeMsg]
      · simp [bufB, hbuf]
    | cons w ws2 =>
      by_cases h3 : bn < w.length
      · left
        refine ⟨w.take bn, { s with buffer := some (w.drop bn) }, ws2, ?_, ?_, ?_⟩
        · simp [pipeRead, hc, hbuf, readFromLoop, mkQ, oraOf, dataMsg, h3]
        · simpa using hc
        · have hw : w.take bn ++ (w.drop bn ++ ws2.flatten) = w ++ ws2.flatten := by
            rw [← List.append_assoc, List.take_append_drop]
          simp [bufB, hbuf, hw]
      · left
        refine ⟨w, { s with buffer := none }, ws2, ?_, ?_, ?_⟩
        · simp [pipeRead, hc, hbuf, readFromLoop, mkQ, oraOf, dataMsg, h3]
        · simpa using hc
        · simp [bufB, hbuf]

theorem readAll_inv (bns : List Nat) : ∀ (s : PipeState) (ws : List (List Nat))
    (acc out : List Nat), s.closed = false →
    readAll s bns (oraOf (mkQ ws)) acc = some out →
    out = acc ++ (bufB s ++ ws.flatten) := by
  induction bns with
  | nil =>
    intro s ws acc out hc h
    simp [readAll] at h
  | cons bn rest ih =>
    intro s ws acc out hc h
    rcases pipeRead_step s bn ws hc with
      ⟨bs, s1, ws1, heq, hc1, hsum⟩ | ⟨bs, s1, rest1, heq, hc1, hsum⟩ |
      ⟨s1, rest1, heq, hsum⟩
    · simp only [readAll, heq] at h
      have := ih s1 ws1 (acc ++ bs) out hc1 h
      simp [this, hsum, List.append_assoc]
    · simp only [readAll, heq] at h
      have := readAll_closed s1 hc1 rest rest1 (acc ++ bs) out h
      simp [this, hsum]
    · simp only [readAll, heq] at h
      simp only [List.append_nil, Option.some.injEq] at h
      simp [← h, hsum]

/-- Claim C4: if a fresh pipe endpoint reads from an inbox holding the
data frames of the writes `ws` followed by the peer's `pipe/close`, then
any sequence of `Read` calls that reaches end-of-stream returns byte
slices whose concatenation is exactly `ws.flatten` — no bytes lost,
duplicated or reordered. -/
theorem pipe_byte_conservation (ws : List (List Nat)) (bns : List Nat) (out : List Nat)
    (h : readAll ⟨false, false, none⟩ bns (oraOf (mkQ ws)) [] = some out) :
    out = ws.flatten := by
  simpa [bufB] using readAll_inv bns ⟨false, false, none⟩ ws [] out rfl h

theorem pipe_byte_conservation_witness :
    ([1, 2, 3, 4, 5] : List Nat) = ([[1, 2, 3], [4, 5]] : List (List Nat)).flatten :=
  pipe_byte_conservation [[1, 2, 3], [4, 5]] [2, 2, 2, 1] [1, 2, 3, 4, 5] (by decide)

end Vega
